import Mathlib

/-!
Shallow embedding of the `lpss_info` network monitor (`src/main.cpp`).

The monitor keeps a `MonitorState` with two maps guarded by one mutex:
`nodes : uint64 -> string` (node display names keyed by 48-bit guid masks)
and `topics : uint64 -> vector<EndpointInfo>` (publisher/subscriber records).
`std::unordered_map` is embedded as an association list with unique keys;
`mapSet` models `operator[]` assignment (overwrite in place, append new keys),
`mapLookup` models `find`/`count`-style lookup.  Listener loops, the graph
exporter and the `info` console command are embedded as pure functions of
this state; packet validity checks operate on the raw byte list.
-/

/-- Record of one publish/subscribe relationship (struct `EndpointInfo`). -/
structure EndpointInfo where
  topic : String
  is_pub : Bool
deriving DecidableEq, Repr

/-- Association-list embedding of `std::unordered_map<uint64_t, A>`:
update-or-append, keeping the position of an existing key. -/
def mapSet {A : Type} : List (Nat × A) → Nat → A → List (Nat × A)
  | [], k, v => [(k, v)]
  | (a, b) :: rest, k, v =>
    if a = k then (k, v) :: rest else (a, b) :: mapSet rest k v

/-- Association-list lookup (first entry with the given key). -/
def mapLookup {A : Type} : List (Nat × A) → Nat → Option A
  | [], _ => none
  | (a, b) :: rest, k => if a = k then some b else mapLookup rest k

/-- Shared monitor state (struct `MonitorState`); the mutex and the
`running` flag are not data, so only the two maps are carried. -/
structure MonitorState where
  nodes : List (Nat × String)
  topics : List (Nat × List EndpointInfo)
deriving DecidableEq, Repr

/-- The state as created at startup: both maps empty. -/
def emptyState : MonitorState := ⟨[], []⟩

/-- Mask to the low 48 bits (function `get_prefix`: `g.full & 0xFFFFFFFFFFFF`);
keeping the low 48 bits of a natural number is reduction modulo `2 ^ 48`,
see `get_prefix_eq_mask` below for the literal bitmask form. -/
def get_prefix (g : Nat) : Nat := g % 2 ^ 48

/-- Decoded RNDP node announcement (the fields `task_nodes` consumes). -/
structure RNDPMessage where
  guid : Nat
  name : String
deriving DecidableEq, Repr

/-- Endpoint kind tag of a REDP message (`REDPMessage::Type`). -/
inductive REDPType where
  | Writer : REDPType
  | Reader : REDPType
deriving DecidableEq, Repr

/-- Boolean test `msg.type == REDPMessage::Type::Writer`. -/
def REDPType.isWriter : REDPType → Bool
  | .Writer => true
  | .Reader => false

/-- Decoded REDP endpoint announcement (the fields `task_topics` consumes). -/
structure REDPMessage where
  endpoint_guid : Nat
  topic : String
  type : REDPType
deriving DecidableEq, Repr

/-- Node-map effect of one decoded node announcement:
`state->nodes[get_prefix(msg.guid)] = msg.name`. -/
def nodesUpd (nm : List (Nat × String)) (msg : RNDPMessage) : List (Nat × String) :=
  mapSet nm ( get_prefix msg.guid) msg.name

/-- Body of `task_nodes` for one decoded message (run under the store lock). -/
def process_node (st : MonitorState) (msg : RNDPMessage) : MonitorState :=
  { st with nodes := nodesUpd st.nodes msg }

/-- Effect of a whole sequence of decoded node announcements on the
startup state. -/
def run_nodes (msgs : List RNDPMessage) : MonitorState :=
  msgs.foldl process_node emptyState

/-- Modelled from the spec: the `name` of the most recently processed node
announcement whose guid masks to `p` (spec-side reference function, to be
compared with the store contents). -/
def specLastName (msgs : List RNDPMessage) (p : Nat) : Option String :=
  msgs.foldl (fun acc m => if get_prefix m.guid = p then some m.name else acc) none

/-- Topic-map effect of one decoded endpoint announcement (body of
`task_topics` under the store lock): look up or create the endpoint list for
the 48-bit mask of `endpoint_guid`, linearly scan it for a record with the
same topic and role, and append only if absent. -/
def topicsUpd (tm : List (Nat × List EndpointInfo)) (msg : REDPMessage) :
    List (Nat × List EndpointInfo) :=
  let p := get_prefix msg.endpoint_guid
  let list := (mapLookup tm p).getD []
  let found := list.any (fun ep => ep.topic == msg.topic && ep.is_pub == msg.type.isWriter)
  mapSet tm p (if found then list else list ++ [⟨msg.topic, msg.type.isWriter⟩])

/-- Body of `task_topics` for one decoded message (run under the store lock). -/
def process_topic (st : MonitorState) (msg : REDPMessage) : MonitorState :=
  { st with topics := topicsUpd st.topics msg }

/-- Effect of a whole sequence of decoded endpoint announcements on the
startup state. -/
def run_topics (msgs : List REDPMessage) : MonitorState :=
  msgs.foldl process_topic emptyState

/-- The endpoint list the store holds for a mask value (empty if absent). -/
def topicsAt (st : MonitorState) (p : Nat) : List EndpointInfo :=
  (mapLookup st.topics p).getD []

/-- Dedup key of an endpoint record: the (topic, role) pair. -/
def epKey (e : EndpointInfo) : String × Bool := (e.topic, e.is_pub)

/-- One loop iteration of `task_nodes` at the packet level: the store is
touched only when the datagram has at least 14 bytes and its first byte is
the RNDP tag `'N'` (78); decoding is delegated to the external library,
embedded as the function argument `decode`. -/
def task_nodes_step (st : MonitorState) (data : List Nat)
    (decode : List Nat → RNDPMessage) : MonitorState :=
  if 14 ≤ data.length ∧ data.headD 0 = 78 then process_node st (decode data) else st

/-- One loop iteration of `task_topics` at the packet level: the store is
touched only when the datagram has at least 14 bytes and its first byte is
the REDP tag `'E'` (69). -/
def task_topics_step (st : MonitorState) (data : List Nat)
    (decode : List Nat → REDPMessage) : MonitorState :=
  if 14 ≤ data.length ∧ data.headD 0 = 69 then process_topic st (decode data) else st

/-- One announcement processed by either listener; each constructor stands
for one full critical section (the scan-then-append of `task_topics` and the
upsert of `task_nodes` each run under a single acquisition of the one store
mutex, so an interleaved execution is a sequence of these atomic steps). -/
inductive Announce where
  | node : RNDPMessage → Announce
  | ep : REDPMessage → Announce

/-- Apply one atomic listener critical section to the store. -/
def apply_announce (st : MonitorState) : Announce → MonitorState
  | .node m => process_node st m
  | .ep m => process_topic st m

/-- An arbitrary interleaving of the node-listener stream and the
endpoint-listener stream, driven by a boolean schedule (`true` picks the
next node announcement, `false` the next endpoint announcement; an
exhausted schedule or stream flushes deterministically). -/
def mergeStream : List Bool → List RNDPMessage → List REDPMessage → List Announce
  | [], ns, es => ns.map Announce.node ++ es.map Announce.ep
  | true :: s, n :: ns, es => Announce.node n :: mergeStream s ns es
  | true :: s, [], es => mergeStream s [] es
  | false :: s, ns, e :: es => Announce.ep e :: mergeStream s ns es
  | false :: s, ns, [] => mergeStream s ns []

/-- The sequential reference result: node announcements folded into the node
map, endpoint announcements folded into the topic map. -/
def finalState (ns : List RNDPMessage) (es : List REDPMessage) : MonitorState :=
  ⟨ns.foldl nodesUpd emptyState.nodes, es.foldl topicsUpd emptyState.topics⟩

/-- Ordered insertion without duplicates: the effect of one
`std::set<std::string>::insert` on the sorted element sequence. -/
def insertSorted (t : String) : List String → List String
  | [] => [t]
  | x :: xs =>
    if t < x then t :: x :: xs else if t = x then x :: xs else x :: insertSorted t xs

/-- The `all_topics` set built in `generate_graph`: every distinct topic
name across every endpoint list of the topic map. -/
def all_topics (tm : List (Nat × List EndpointInfo)) : List String :=
  tm.foldl (fun acc pr => pr.2.foldl (fun acc2 ep => insertSorted ep.topic acc2) acc) []

/-- Lowercase hexadecimal rendering of a node key, as `%lx` prints it. -/
def toHexStr (n : Nat) : String := String.mk (Nat.toDigits 16 n)

/-- A vertex reference as it appears in the DOT text: `n<hex>` for a node
box, a quoted `t_<topic>` for a topic ellipse. -/
inductive GVertex where
  | nodeV : Nat → GVertex
  | topicV : String → GVertex
deriving DecidableEq, Repr

/-- Exact vertex reference text. -/
def GVertex.ref : GVertex → String
  | .nodeV p => "n" ++ toHexStr p
  | .topicV t => "\"t_" ++ t ++ "\""

/-- One emitted DOT statement of the graph body. -/
inductive GraphItem where
  | topicDecl : String → GraphItem
  | nodeDecl : Nat → String → GraphItem
  | edge : GVertex → GVertex → String → String → GraphItem
deriving DecidableEq, Repr

/-- Exact text of one emitted statement (the three `fprintf` formats of the
graph body). -/
def renderItem : GraphItem → String
  | .topicDecl t =>
      "  " ++ GVertex.ref (GVertex.topicV t) ++ " [label=\"" ++ t ++
        "\", shape=ellipse, style=filled, fillcolor=lightyellow];"
  | .nodeDecl p name =>
      "  " ++ GVertex.ref (GVertex.nodeV p) ++ " [label=\"" ++ name ++
        "\", shape=box, style=filled, fillcolor=lightblue];"
  | .edge src dst color lbl =>
      "  " ++ GVertex.ref src ++ " -> " ++ GVertex.ref dst ++ " [color=" ++ color ++
        ", label=\"" ++ lbl ++ "\"];"

/-- The DOT statements of one node's section: its box declaration followed
by one edge per endpoint record of its mask value (Publisher edges run
node→topic in blue labelled pub, Subscriber edges run topic→node in
darkgreen labelled sub); the edge loop is guarded by `topics.count`. -/
def node_section (tm : List (Nat × List EndpointInfo)) (pr : Nat × String) :
    List GraphItem :=
  GraphItem.nodeDecl pr.1 pr.2 ::
    (match mapLookup tm pr.1 with
     | some l => l.map (fun ep =>
         if ep.is_pub then
           GraphItem.edge (GVertex.nodeV pr.1) (GVertex.topicV ep.topic) ("blue") ("pub")
         else
           GraphItem.edge (GVertex.topicV ep.topic) (GVertex.nodeV pr.1) ("darkgreen") ("sub"))
     | none => [])

/-- All DOT statements of the graph body: topic declarations in set order,
then each node's section in node-map order. -/
def graph_items (st : MonitorState) : List GraphItem :=
  (all_topics st.topics).map GraphItem.topicDecl ++
    (st.nodes.map (node_section st.topics)).flatten

/-- The fixed header: the opening line, the two layout lines, and the blank
line that separates them from the body. -/
def graph_header : List String :=
  ["digraph G \x7b", "  rankdir=LR;",
   "  node [fontname=\"sans-serif\", fontsize=10];", ""]

/-- The complete exported DOT text, line by line. -/
def generate_graph_lines (st : MonitorState) : List String :=
  graph_header ++ (graph_items st).map renderItem ++ ["\x7d"]

/-- The complete exported DOT text as one string (every line carries its
trailing newline, as `fprintf` writes it). -/
def generate_graph_text (st : MonitorState) : String :=
  String.join ((generate_graph_lines st).map (fun l => l ++ "\n"))

/-- Observable outcome of one whole `generate_graph` call. -/
structure GraphExportResult where
  state : MonitorState
  file : Option String
  console : String
  rasterized : Bool
deriving Repr

/-- The whole `generate_graph` call including the `fopen` check: `openOk`
tells whether opening the fixed output path succeeded; on failure the
function returns at once — no text is written, nothing is printed, and the
rasterizer subprocess is not spawned. -/
def generate_graph_run (openOk : Bool) (st : MonitorState) : GraphExportResult :=
  if openOk then
    { state := st, file := some (generate_graph_text st), console := "",
      rasterized := true }
  else
    { state := st, file := none, console := "", rasterized := false }

/-- Concrete store for the C5 witness: one known node publishing imu. -/
def c5state : MonitorState := ⟨[(5, "n")], [(5, [⟨"imu", true⟩])]⟩

/-- Concrete store refuting C3: an endpoint announcement was processed for
mask value 5 but no node announcement ever named it. -/
def c3state : MonitorState := ⟨[], [(5, [⟨"imu", true⟩])]⟩

/-- One printed line of the `info` loop: `  [%s] %s` with PUB or SUB,
newline-terminated. -/
def ep_line (ep : EndpointInfo) : String :=
  "  [" ++ (if ep.is_pub then "PUB" else "SUB") ++ "] " ++ ep.topic ++ "\n"

/-- Sequential concatenation of printed fragments. -/
def strConcat : List String → String
  | [] => ""
  | s :: rest => s ++ strConcat rest

/-- What the `info` loop prints for one node: its endpoint records in list
order. -/
def render_eps (l : List EndpointInfo) : String :=
  strConcat (l.map ep_line)

/-- One iteration of the `info` loop over the node map: when the display
name matches, that node's endpoint list is printed; the list is obtained
with `state.topics[p]`, whose `operator[]` inserts an empty list when the
key is absent. -/
def info_fold (arg : String) (acc : String × List (Nat × List EndpointInfo))
    (pr : Nat × String) : String × List (Nat × List EndpointInfo) :=
  if pr.2 = arg then
    (acc.1 ++ render_eps ((mapLookup acc.2 pr.1).getD []),
      mapSet acc.2 pr.1 ((mapLookup acc.2 pr.1).getD []))
  else acc

/-- The `info <name>` console command: iterate over the whole node map in
iteration order (no early exit after a match), printing every matching
node's records; returns the printed text and the store after the command. -/
def info_cmd (st : MonitorState) (arg : String) : String × MonitorState :=
  ((st.nodes.foldl (info_fold arg) ("", st.topics)).1,
   ⟨st.nodes, (st.nodes.foldl (info_fold arg) ("", st.topics)).2⟩)

/-- Concrete store refuting C6 as stated: two distinct mask values share
the display name a, each with its own endpoint record. -/
def c6state : MonitorState :=
  ⟨[(1, "a"), (2, "a")], [(1, [⟨"t1", true⟩]), (2, [⟨"t2", false⟩])]⟩

/-- Concrete store for the amended C6 witness: one node, name b. -/
def c6miss : MonitorState := ⟨[(1, "b")], []⟩

/-- Concrete store for the C10 witness: one node named a, empty endpoint
map. -/
def c10state : MonitorState := ⟨[(1, "a")], []⟩

/-- The modular form coincides with the C++ bitmask `g & 0xFFFFFFFFFFFF`. -/
theorem get_prefix_eq_mask (g : Nat) : get_prefix g = g &&& 0xFFFFFFFFFFFF := by
  apply Nat.eq_of_testBit_eq
  intro i
  show (g % 2 ^ 48).testBit i = (g &&& (2 ^ 48 - 1)).testBit i
  rw [Nat.testBit_mod_two_pow, Nat.testBit_and, Nat.testBit_two_pow_sub_one]
  exact Bool.and_comm _ _

theorem mapLookup_mapSet {A : Type} (m : List (Nat × A)) (k k' : Nat) (v : A) :
    mapLookup (mapSet m k v) k' = if k = k' then some v else mapLookup m k' := by
  induction m with
  | nil => simp [mapSet, mapLookup]
  | cons pr rest ih =>
    obtain ⟨a, b⟩ := pr
    by_cases hak : a = k
    · subst hak
      by_cases hkk : a = k' <;> simp [mapSet, mapLookup, hkk]
    · by_cases hak' : a = k'
      · subst hak'
        have hka : k ≠ a := fun h => hak h.symm
        simp [mapSet, mapLookup, hak, hka]
      · simp [mapSet, mapLookup, hak, hak', ih]

theorem mem_keys_mapSet {A : Type} (m : List (Nat × A)) (k a : Nat) (v : A) :
    a ∈ (mapSet m k v).map Prod.fst ↔ a = k ∨ a ∈ m.map Prod.fst := by
  induction m with
  | nil => simp [mapSet]
  | cons pr rest ih =>
    obtain ⟨x, y⟩ := pr
    by_cases hxk : x = k
    · subst hxk
      simp [mapSet]
    · simp [mapSet, hxk, ih]
      tauto

theorem keys_nodup_mapSet {A : Type} (m : List (Nat × A)) (k : Nat) (v : A)
    (h : (m.map Prod.fst).Nodup) : ((mapSet m k v).map Prod.fst).Nodup := by
  induction m with
  | nil => simp [mapSet]
  | cons pr rest ih =>
    obtain ⟨x, y⟩ := pr
    simp only [List.map_cons, List.nodup_cons] at h
    by_cases hxk : x = k
    · subst hxk
      simp only [mapSet, eq_self_iff_true, if_true, List.map_cons, List.nodup_cons]
      exact ⟨h.1, h.2⟩
    · simp only [mapSet, hxk, if_false, List.map_cons, List.nodup_cons]
      refine ⟨fun hmem => ?_, ih h.2⟩
      rcases (mem_keys_mapSet rest k x v).1 hmem with h1 | h2
      · exact hxk h1
      · exact h.1 h2

theorem run_nodes_nodes_nodup_aux (msgs : List RNDPMessage) (st : MonitorState)
    (h : (st.nodes.map Prod.fst).Nodup) :
    (((msgs.foldl process_node st).nodes).map Prod.fst).Nodup := by
  induction msgs generalizing st with
  | nil => simpa using h
  | cons m ms ih =>
    exact ih (process_node st m) (keys_nodup_mapSet st.nodes _ _ h)

theorem run_nodes_lookup_aux (msgs : List RNDPMessage) (st : MonitorState) (p : Nat) :
    mapLookup ((msgs.foldl process_node st).nodes) p =
      msgs.foldl (fun acc m => if get_prefix m.guid = p then some m.name else acc)
        (mapLookup st.nodes p) := by
  induction msgs generalizing st with
  | nil => rfl
  | cons m ms ih =>
    simp only [List.foldl_cons]
    rw [ih (process_node st m)]
    simp only [process_node, nodesUpd]
    rw [mapLookup_mapSet]

/-- C1: after any sequence of processed node announcements, the node map has
exactly one entry per distinct 48-bit mask value (no duplicate keys), and the
stored name for each mask value is the name of the most recently processed
announcement whose guid masks to it (last-write-wins upsert). -/
theorem nodes_last_write_wins (msgs : List RNDPMessage) :
    (((run_nodes msgs).nodes).map Prod.fst).Nodup ∧
    ∀ p : Nat, mapLookup (run_nodes msgs).nodes p = specLastName msgs p := by
  constructor
  · exact run_nodes_nodes_nodup_aux msgs emptyState (by simp [emptyState])
  · intro p
    rw [run_nodes, run_nodes_lookup_aux msgs emptyState p]
    rfl

/-- Witness for C1 at a concrete announcement sequence: two announcements
whose guids share the 48-bit mask; the stored name is the later one. -/
theorem nodes_last_write_wins_witness :
    mapLookup (run_nodes [⟨5, "a"⟩, ⟨5, "b"⟩]).nodes 5 =
      specLastName [⟨5, "a"⟩, ⟨5, "b"⟩] 5 :=
  (nodes_last_write_wins [⟨5, "a"⟩, ⟨5, "b"⟩]).2 5

theorem any_key_eq_mem (l : List EndpointInfo) (t : String) (b : Bool) :
    l.any (fun ep => ep.topic == t && ep.is_pub == b) = true ↔
      (⟨t, b⟩ : EndpointInfo) ∈ l := by
  induction l with
  | nil => simp
  | cons e rest ih =>
    obtain ⟨et, eb⟩ := e
    simp only [List.any_cons, Bool.or_eq_true, ih, List.mem_cons, Bool.and_eq_true,
      beq_iff_eq, EndpointInfo.mk.injEq]
    constructor
    · rintro (⟨h1, h2⟩ | h)
      · exact Or.inl ⟨h1.symm, h2.symm⟩
      · exact Or.inr h
    · rintro (⟨h1, h2⟩ | h)
      · exact Or.inl ⟨h1.symm, h2.symm⟩
      · exact Or.inr h

theorem mem_dedupAppend (l : List EndpointInfo) (t : String) (b : Bool) (e : EndpointInfo) :
    (e ∈ (if l.any (fun ep => ep.topic == t && ep.is_pub == b) then l
          else l ++ [⟨t, b⟩])) ↔ e ∈ l ∨ e = ⟨t, b⟩ := by
  by_cases hf : l.any (fun ep => ep.topic == t && ep.is_pub == b) = true
  · rw [if_pos hf]
    have hrec := (any_key_eq_mem l t b).1 hf
    constructor
    · exact Or.inl
    · rintro (h | rfl)
      · exact h
      · exact hrec
  · rw [if_neg hf]
    simp

theorem nodup_dedupAppend (l : List EndpointInfo) (t : String) (b : Bool)
    (h : (l.map epKey).Nodup) :
    (((if l.any (fun ep => ep.topic == t && ep.is_pub == b) then l
       else l ++ [⟨t, b⟩]).map epKey)).Nodup := by
  by_cases hf : l.any (fun ep => ep.topic == t && ep.is_pub == b) = true
  · rw [if_pos hf]
    exact h
  · rw [if_neg hf]
    rw [List.map_append, List.nodup_append]
    refine ⟨h, List.nodup_singleton _, ?_⟩
    intro a ha hb
    simp only [List.map_cons, List.map_nil, List.mem_singleton] at hb
    subst hb
    obtain ⟨e, hel, hek⟩ := List.mem_map.1 ha
    have he : e = ⟨t, b⟩ := by
      obtain ⟨e1, e2⟩ := e
      simp only [epKey, Prod.mk.injEq] at hek
      simp [hek.1, hek.2]
    exact hf ((any_key_eq_mem l t b).2 (he ▸ hel))

theorem topicsAt_process_topic (st : MonitorState) (m : REDPMessage) (p : Nat)
    (e : EndpointInfo) :
    e ∈ topicsAt (process_topic st m) p ↔
      e ∈ topicsAt st p ∨
        ( get_prefix m.endpoint_guid = p ∧ e = ⟨m.topic, m.type.isWriter⟩) := by
  simp only [topicsAt, process_topic, topicsUpd, mapLookup_mapSet]
  by_cases hp : get_prefix m.endpoint_guid = p
  · rw [if_pos hp, hp]
    simp only [Option.getD_some]
    rw [mem_dedupAppend]
    tauto
  · rw [if_neg hp]
    tauto

theorem topicsAt_process_topic_nodup (st : MonitorState) (m : REDPMessage) (q : Nat)
    (h : ∀ r : Nat, ((topicsAt st r).map epKey).Nodup) :
    ((topicsAt (process_topic st m) q).map epKey).Nodup := by
  simp only [topicsAt, process_topic, topicsUpd, mapLookup_mapSet]
  by_cases hq : get_prefix m.endpoint_guid = q
  · rw [if_pos hq, hq]
    simp only [Option.getD_some]
    exact nodup_dedupAppend _ _ _ (h q)
  · rw [if_neg hq]
    exact h q

theorem run_topics_nodup_aux (msgs : List REDPMessage) (st : MonitorState)
    (h : ∀ q : Nat, ((topicsAt st q).map epKey).Nodup) (p : Nat) :
    ((topicsAt (msgs.foldl process_topic st) p).map epKey).Nodup := by
  induction msgs generalizing st with
  | nil => exact h p
  | cons m ms ih =>
    exact ih (process_topic st m) (fun q => topicsAt_process_topic_nodup st m q h)

theorem run_topics_mem_aux (msgs : List REDPMessage) (st : MonitorState) (p : Nat)
    (e : EndpointInfo) :
    e ∈ topicsAt (msgs.foldl process_topic st) p ↔
      e ∈ topicsAt st p ∨
        ∃ m ∈ msgs, get_prefix m.endpoint_guid = p ∧ e = ⟨m.topic, m.type.isWriter⟩ := by
  induction msgs generalizing st with
  | nil => simp
  | cons m ms ih =>
    simp only [List.foldl_cons]
    rw [ih (process_topic st m), topicsAt_process_topic]
    constructor
    · rintro ((h | h) | ⟨mm, hmm, h1, h2⟩)
      · exact Or.inl h
      · exact Or.inr ⟨m, List.mem_cons_self m ms, h.1, h.2⟩
      · exact Or.inr ⟨mm, List.mem_cons_of_mem m hmm, h1, h2⟩
    · rintro (h | ⟨mm, hmm, h1, h2⟩)
      · exact Or.inl (Or.inl h)
      · rcases List.mem_cons.1 hmm with rfl | hmm'
        · exact Or.inl (Or.inr ⟨h1, h2⟩)
        · exact Or.inr ⟨mm, hmm', h1, h2⟩

/-- C2: after any sequence of processed endpoint announcements, each mask
value's endpoint list has no two records with the same (topic, role) pair,
and a record (t, b) is present exactly when some processed announcement
carried that mask value, topic `t` and role `b` — so a repeated identical
triple is never appended twice, while Publisher and Subscriber records for
the same topic are kept as two distinct records. -/
theorem topics_idempotent_dedup (msgs : List REDPMessage) (p : Nat) :
    ((topicsAt (run_topics msgs) p).map epKey).Nodup ∧
    ∀ (t : String) (b : Bool),
      (⟨t, b⟩ : EndpointInfo) ∈ topicsAt (run_topics msgs) p ↔
        ∃ m ∈ msgs, get_prefix m.endpoint_guid = p ∧ m.topic = t ∧ m.type.isWriter = b := by
  constructor
  · exact run_topics_nodup_aux msgs emptyState
      (fun q => by simp [topicsAt, emptyState, mapLookup]) p
  · intro t b
    rw [run_topics, run_topics_mem_aux]
    constructor
    · rintro (h | ⟨m, hm, h1, h2⟩)
      · simp [topicsAt, emptyState, mapLookup] at h
      · injection h2 with h3 h4
        exact ⟨m, hm, h1, h3.symm, h4.symm⟩
    · rintro ⟨m, hm, h1, h2, h3⟩
      exact Or.inr ⟨m, hm, h1, by rw [h2, h3]⟩

/-- Witness for C2 at a concrete announcement sequence: one Writer
announcement for topic imu puts the Publisher record into the list. -/
theorem topics_idempotent_dedup_witness :
    (⟨"imu", true⟩ : EndpointInfo) ∈ topicsAt (run_topics [⟨5, "imu", REDPType.Writer⟩]) 5 :=
  ((topics_idempotent_dedup [⟨5, "imu", REDPType.Writer⟩] 5).2 ("imu") true).mpr
    ⟨⟨5, "imu", REDPType.Writer⟩, List.mem_singleton_self _, by decide, rfl, rfl⟩

/-- C7: an undersized datagram, or one whose leading type discriminator
byte does not match the expected tag, leaves the store unchanged in both
listeners (silent drop, no error value anywhere). -/
theorem malformed_packet_dropped (st : MonitorState) (data : List Nat)
    (dn : List Nat → RNDPMessage) (de : List Nat → REDPMessage) :
    (data.length < 14 ∨ data.headD 0 ≠ 78 → task_nodes_step st data dn = st) ∧
    (data.length < 14 ∨ data.headD 0 ≠ 69 → task_topics_step st data de = st) := by
  constructor
  · intro h
    rw [task_nodes_step, if_neg]
    rintro ⟨h1, h2⟩
    rcases h with h | h
    · omega
    · exact h h2
  · intro h
    rw [task_topics_step, if_neg]
    rintro ⟨h1, h2⟩
    rcases h with h | h
    · omega
    · exact h h2

/-- Witness for C7 at a concrete undersized packet: a one-byte datagram is
dropped by the node listener. -/
theorem malformed_packet_dropped_witness :
    task_nodes_step emptyState [78] (fun _ => ⟨0, "x"⟩) = emptyState :=
  (malformed_packet_dropped emptyState [78] (fun _ => ⟨0, "x"⟩)
    (fun _ => ⟨0, "x", REDPType.Writer⟩)).1 (Or.inl (by decide))

theorem foldl_announce_nodes_only (ns : List RNDPMessage) (st : MonitorState) :
    (ns.map Announce.node).foldl apply_announce st =
      ⟨ns.foldl nodesUpd st.nodes, st.topics⟩ := by
  induction ns generalizing st with
  | nil => rfl
  | cons n rest ih =>
    simp only [List.map_cons, List.foldl_cons]
    rw [ih (apply_announce st (Announce.node n))]
    rfl

theorem foldl_announce_eps_only (es : List REDPMessage) (st : MonitorState) :
    (es.map Announce.ep).foldl apply_announce st =
      ⟨st.nodes, es.foldl topicsUpd st.topics⟩ := by
  induction es generalizing st with
  | nil => rfl
  | cons e rest ih =>
    simp only [List.map_cons, List.foldl_cons]
    rw [ih (apply_announce st (Announce.ep e))]
    rfl

theorem mergeStream_foldl (sched : List Bool) (ns : List RNDPMessage)
    (es : List REDPMessage) (st : MonitorState) :
    (mergeStream sched ns es).foldl apply_announce st =
      ⟨ns.foldl nodesUpd st.nodes, es.foldl topicsUpd st.topics⟩ := by
  induction sched generalizing ns es st with
  | nil =>
    rw [mergeStream, List.foldl_append, foldl_announce_nodes_only,
      foldl_announce_eps_only]
  | cons b s ih =>
    cases b with
    | true =>
      cases ns with
      | nil => rw [mergeStream, ih]
      | cons n rest =>
        rw [mergeStream, List.foldl_cons]
        rw [ih rest es (apply_announce st (Announce.node n))]
        rfl
    | false =>
      cases es with
      | nil => rw [mergeStream, ih]
      | cons e rest =>
        rw [mergeStream, List.foldl_cons]
        rw [ih ns rest (apply_announce st (Announce.ep e))]
        rfl

/-- C9: each listener's existence check and append happen inside one atomic
critical section (one `Announce` step); for every interleaving of the two
listener streams the final store equals the deterministic per-stream
last-write-wins/dedup result, independent of the schedule. -/
theorem interleaving_deterministic (sched : List Bool) (ns : List RNDPMessage)
    (es : List REDPMessage) :
    (mergeStream sched ns es).foldl apply_announce emptyState = finalState ns es :=
  mergeStream_foldl sched ns es emptyState

theorem insertSorted_cons (t x : String) (xs : List String) :
    insertSorted t (x :: xs) =
      if t < x then t :: x :: xs
      else if t = x then x :: xs else x :: insertSorted t xs := rfl

theorem mem_insertSorted (t a : String) (l : List String) :
    a ∈ insertSorted t l ↔ a = t ∨ a ∈ l := by
  induction l with
  | nil => simp [insertSorted]
  | cons x xs ih =>
    rw [insertSorted_cons]
    by_cases h1 : t < x
    · rw [if_pos h1]
      simp
    · rw [if_neg h1]
      by_cases h2 : t = x
      · rw [if_pos h2]
        subst h2
        simp only [List.mem_cons]
        tauto
      · rw [if_neg h2]
        simp only [List.mem_cons, ih]
        tauto

theorem sorted_insertSorted (t : String) (l : List String)
    (h : List.Pairwise (fun a b => a < b) l) :
    List.Pairwise (fun a b => a < b) (insertSorted t l) := by
  induction l with
  | nil => simp [insertSorted]
  | cons x xs ih =>
    rw [List.pairwise_cons] at h
    rw [insertSorted_cons]
    by_cases h1 : t < x
    · rw [if_pos h1, List.pairwise_cons]
      refine ⟨?_, List.pairwise_cons.2 h⟩
      intro a ha
      rcases List.mem_cons.1 ha with rfl | ha'
      · exact h1
      · exact lt_trans h1 (h.1 a ha')
    · rw [if_neg h1]
      by_cases h2 : t = x
      · rw [if_pos h2]
        exact List.pairwise_cons.2 h
      · have hxt : x < t := lt_of_le_of_ne (le_of_not_lt h1) (fun hx => h2 hx.symm)
        rw [if_neg h2, List.pairwise_cons]
        refine ⟨fun a ha => ?_, ih h.2⟩
        rcases (mem_insertSorted t a xs).1 ha with rfl | ha'
        · exact hxt
        · exact h.1 a ha'

theorem sorted_topic_fold (l : List EndpointInfo) (acc : List String)
    (h : List.Pairwise (fun a b => a < b) acc) :
    List.Pairwise (fun a b => a < b)
      (l.foldl (fun acc2 ep => insertSorted ep.topic acc2) acc) := by
  induction l generalizing acc with
  | nil => exact h
  | cons e rest ih => exact ih _ (sorted_insertSorted e.topic acc h)

theorem sorted_all_topics (tm : List (Nat × List EndpointInfo)) :
    List.Pairwise (fun a b => a < b) (all_topics tm) := by
  rw [all_topics]
  generalize hacc : ([] : List String) = acc
  have hs : List.Pairwise (fun a b : String => a < b) acc := by
    rw [← hacc]; exact List.Pairwise.nil
  clear hacc
  induction tm generalizing acc with
  | nil => exact hs
  | cons pr rest ih => exact ih _ (sorted_topic_fold pr.2 acc hs)

theorem mem_topic_fold (l : List EndpointInfo) (acc : List String) (a : String) :
    a ∈ l.foldl (fun acc2 ep => insertSorted ep.topic acc2) acc ↔
      (∃ ep ∈ l, ep.topic = a) ∨ a ∈ acc := by
  induction l generalizing acc with
  | nil => simp
  | cons e rest ih =>
    simp only [List.foldl_cons]
    rw [ih, mem_insertSorted]
    constructor
    · rintro (⟨ep, hep, h⟩ | (rfl | h))
      · exact Or.inl ⟨ep, List.mem_cons_of_mem e hep, h⟩
      · exact Or.inl ⟨e, List.mem_cons_self e rest, rfl⟩
      · exact Or.inr h
    · rintro (⟨ep, hep, h⟩ | h)
      · rcases List.mem_cons.1 hep with rfl | hep'
        · exact Or.inr (Or.inl h.symm)
        · exact Or.inl ⟨ep, hep', h⟩
      · exact Or.inr (Or.inr h)

theorem mem_all_topics (tm : List (Nat × List EndpointInfo)) (a : String) :
    a ∈ all_topics tm ↔ ∃ pr ∈ tm, ∃ ep ∈ pr.2, ep.topic = a := by
  rw [all_topics]
  have haux : ∀ (rest : List (Nat × List EndpointInfo)) (acc : List String),
      a ∈ rest.foldl (fun acc2 pr => pr.2.foldl (fun acc3 ep => insertSorted ep.topic acc3) acc2) acc ↔
        (∃ pr ∈ rest, ∃ ep ∈ pr.2, ep.topic = a) ∨ a ∈ acc := by
    intro rest
    induction rest with
    | nil => simp
    | cons pr tl ih =>
      intro acc
      simp only [List.foldl_cons]
      rw [ih, mem_topic_fold]
      constructor
      · rintro (⟨q, hq, hep⟩ | (hep | h))
        · exact Or.inl ⟨q, List.mem_cons_of_mem pr hq, hep⟩
        · exact Or.inl ⟨pr, List.mem_cons_self pr tl, hep⟩
        · exact Or.inr h
      · rintro (⟨q, hq, hep⟩ | h)
        · rcases List.mem_cons.1 hq with rfl | hq'
          · exact Or.inr (Or.inl hep)
          · exact Or.inl ⟨q, hq', hep⟩
        · exact Or.inr (Or.inr h)
  rw [haux]
  simp

theorem mapLookup_eq_none_mem {A : Type} (m : List (Nat × A)) (k : Nat)
    (h : mapLookup m k = none) : ∀ pr ∈ m, pr.1 ≠ k := by
  induction m with
  | nil => simp
  | cons x xs ih =>
    obtain ⟨a, b⟩ := x
    by_cases hak : a = k
    · simp [mapLookup, hak] at h
    · rw [show mapLookup ((a, b) :: xs) k = mapLookup xs k from by
        simp [mapLookup, hak]] at h
      intro pr hpr
      rcases List.mem_cons.1 hpr with rfl | hpr'
      · simpa using hak
      · exact ih h pr hpr'

theorem mapLookup_some_mem {A : Type} (m : List (Nat × A)) (k : Nat) (v : A)
    (h : mapLookup m k = some v) : (k, v) ∈ m := by
  induction m with
  | nil => simp [mapLookup] at h
  | cons x xs ih =>
    obtain ⟨a, b⟩ := x
    by_cases hak : a = k
    · subst hak
      rw [show mapLookup ((a, b) :: xs) a = some b from by simp [mapLookup]] at h
      injection h with h
      subst h
      exact List.mem_cons_self _ _
    · rw [show mapLookup ((a, b) :: xs) k = mapLookup xs k from by
        simp [mapLookup, hak]] at h
      exact List.mem_cons_of_mem _ (ih h)

theorem mem_graph_items (st : MonitorState) (it : GraphItem) :
    it ∈ graph_items st ↔
      (∃ t, it = GraphItem.topicDecl t ∧ t ∈ all_topics st.topics) ∨
      ∃ pr ∈ st.nodes, it ∈ node_section st.topics pr := by
  rw [graph_items, List.mem_append, List.mem_flatten]
  constructor
  · rintro (h | ⟨l, hl, hit⟩)
    · obtain ⟨t, ht, rfl⟩ := List.mem_map.1 h
      exact Or.inl ⟨t, rfl, ht⟩
    · obtain ⟨pr, hpr, rfl⟩ := List.mem_map.1 hl
      exact Or.inr ⟨pr, hpr, hit⟩
  · rintro (⟨t, rfl, ht⟩ | ⟨pr, hpr, hit⟩)
    · exact Or.inl (List.mem_map.2 ⟨t, ht, rfl⟩)
    · exact Or.inr ⟨node_section st.topics pr, List.mem_map.2 ⟨pr, hpr, rfl⟩, hit⟩

theorem mem_node_section (tm : List (Nat × List EndpointInfo)) (pr : Nat × String)
    (it : GraphItem) :
    it ∈ node_section tm pr ↔
      it = GraphItem.nodeDecl pr.1 pr.2 ∨
      ∃ ep ∈ (mapLookup tm pr.1).getD [],
        it = (if ep.is_pub then
                GraphItem.edge (GVertex.nodeV pr.1) (GVertex.topicV ep.topic) ("blue") ("pub")
              else
                GraphItem.edge (GVertex.topicV ep.topic) (GVertex.nodeV pr.1)
                  ("darkgreen") ("sub")) := by
  cases hl : mapLookup tm pr.1 with
  | none =>
    simp [node_section, hl]
  | some l =>
    simp only [node_section, hl, List.mem_cons, Option.getD_some, List.mem_map]
    constructor
    · rintro (h | h)
      · exact Or.inl h
      · obtain ⟨ep, hep, rfl⟩ := h
        exact Or.inr ⟨ep, hep, rfl⟩
    · rintro (h | ⟨ep, hep, rfl⟩)
      · exact Or.inl h
      · exact Or.inr ⟨ep, hep, rfl⟩

/-- C4: graph export is deterministic — the text is a function of the
snapshot alone, so two renderings of one snapshot are byte-identical — and
the topic vertex declarations form one consecutive block, in strictly
ascending lexicographic order of topic name, right after the fixed header. -/
theorem graph_export_deterministic (st : MonitorState) :
    generate_graph_text st = generate_graph_text st ∧
    List.Pairwise (fun a b => a < b) (all_topics st.topics) ∧
    generate_graph_lines st =
      graph_header ++
        ((all_topics st.topics).map (fun t => renderItem (GraphItem.topicDecl t)) ++
          (((st.nodes.map (node_section st.topics)).flatten).map renderItem ++
            ["\x7d"])) := by
  refine ⟨rfl, sorted_all_topics st.topics, ?_⟩
  rw [generate_graph_lines, graph_items, List.map_append, List.map_map]
  simp [List.append_assoc, Function.comp]

/-- C5: every endpoint record of every known node is rendered as a directed
edge whose orientation follows its role: a Publisher record yields the edge
node→topic (blue, labelled pub), a Subscriber record yields the edge
topic→node (darkgreen, labelled sub). -/
theorem edge_direction_matches_role (st : MonitorState) (p : Nat) (name : String)
    (ep : EndpointInfo) (hn : (p, name) ∈ st.nodes)
    (he : ep ∈ (mapLookup st.topics p).getD []) :
    (if ep.is_pub then
       GraphItem.edge (GVertex.nodeV p) (GVertex.topicV ep.topic) ("blue") ("pub")
     else
       GraphItem.edge (GVertex.topicV ep.topic) (GVertex.nodeV p) ("darkgreen") ("sub"))
      ∈ graph_items st := by
  rw [mem_graph_items]
  refine Or.inr ⟨(p, name), hn, ?_⟩
  rw [mem_node_section]
  exact Or.inr ⟨ep, he, rfl⟩

/-- Witness for C5: in `c5state` the Publisher record yields the blue
node→topic edge among the emitted statements. -/
theorem edge_direction_matches_role_witness :
    GraphItem.edge (GVertex.nodeV 5) (GVertex.topicV ("imu")) ("blue") ("pub")
      ∈ graph_items c5state :=
  edge_direction_matches_role c5state 5 ("n") ⟨"imu", true⟩
    (List.mem_singleton_self _) (List.mem_singleton_self _)

/-- Counterexample to C3: in `c3state` the mask value 5 occurs in the
endpoint map and not in the node map, yet graph export emits no node
declaration for it at all (no placeholder vertex exists). -/
theorem graph_unknown_node_cex :
    mapLookup c3state.topics 5 ≠ none ∧ mapLookup c3state.nodes 5 = none ∧
    ¬ ∃ name : String, GraphItem.nodeDecl 5 name ∈ graph_items c3state := by
  refine ⟨by simp [c3state, mapLookup], rfl, ?_⟩
  rintro ⟨name, h⟩
  have hitems : graph_items c3state = [GraphItem.topicDecl ("imu")] := rfl
  rw [hitems] at h
  simp at h

theorem node_section_shape (tm : List (Nat × List EndpointInfo)) (pr : Nat × String)
    (it : GraphItem) (hin : it ∈ node_section tm pr) :
    it = GraphItem.nodeDecl pr.1 pr.2 ∨
    ∃ t : String,
      it = GraphItem.edge (GVertex.nodeV pr.1) (GVertex.topicV t) ("blue") ("pub") ∨
      it = GraphItem.edge (GVertex.topicV t) (GVertex.nodeV pr.1) ("darkgreen") ("sub") := by
  rcases (mem_node_section tm pr it).1 hin with h | ⟨ep, _, h⟩
  · exact Or.inl h
  · refine Or.inr ⟨ep.topic, ?_⟩
    by_cases hb : ep.is_pub = true
    · rw [if_pos hb] at h
      exact Or.inl h
    · rw [if_neg hb] at h
      exact Or.inr h

/-- C3 amended: for a mask value absent from the node map, graph export
emits no node declaration and no edge touching that node vertex; the topics
of its endpoint records still receive topic vertex declarations. -/
theorem graph_unknown_node_amended (st : MonitorState) (p : Nat)
    (h : mapLookup st.nodes p = none) :
    (∀ name : String, GraphItem.nodeDecl p name ∉ graph_items st) ∧
    (∀ (v : GVertex) (c lbl : String),
        GraphItem.edge (GVertex.nodeV p) v c lbl ∉ graph_items st ∧
        GraphItem.edge v (GVertex.nodeV p) c lbl ∉ graph_items st) ∧
    (∀ l : List EndpointInfo, mapLookup st.topics p = some l →
        ∀ ep ∈ l, GraphItem.topicDecl ep.topic ∈ graph_items st) := by
  have hkeys := mapLookup_eq_none_mem st.nodes p h
  refine ⟨?_, ?_, ?_⟩
  · intro name hmem
    rcases (mem_graph_items st _).1 hmem with ⟨t, ht, _⟩ | ⟨pr, hpr, hin⟩
    · exact GraphItem.noConfusion ht
    · rcases node_section_shape st.topics pr _ hin with heq | ⟨t, heq | heq⟩
      · injection heq with h1 h2
        exact hkeys pr hpr h1.symm
      · exact GraphItem.noConfusion heq
      · exact GraphItem.noConfusion heq
  · intro v c lbl
    constructor
    · intro hmem
      rcases (mem_graph_items st _).1 hmem with ⟨t, ht, _⟩ | ⟨pr, hpr, hin⟩
      · exact GraphItem.noConfusion ht
      · rcases node_section_shape st.topics pr _ hin with heq | ⟨t, heq | heq⟩
        · exact GraphItem.noConfusion heq
        · injection heq with e1 e2 e3 e4
          exact hkeys pr hpr (GVertex.nodeV.inj e1).symm
        · injection heq with e1 e2 e3 e4
          exact GVertex.noConfusion e1
    · intro hmem
      rcases (mem_graph_items st _).1 hmem with ⟨t, ht, _⟩ | ⟨pr, hpr, hin⟩
      · exact GraphItem.noConfusion ht
      · rcases node_section_shape st.topics pr _ hin with heq | ⟨t, heq | heq⟩
        · exact GraphItem.noConfusion heq
        · injection heq with e1 e2 e3 e4
          exact GVertex.noConfusion e2
        · injection heq with e1 e2 e3 e4
          exact hkeys pr hpr (GVertex.nodeV.inj e2).symm
  · intro l hl ep hep
    rw [mem_graph_items]
    refine Or.inl ⟨ep.topic, rfl, ?_⟩
    rw [mem_all_topics]
    exact ⟨(p, l), mapLookup_some_mem st.topics p l hl, ep, hep, rfl⟩

/-- Witness for the amended C3 at `c3state`: no node declaration labelled x
for mask value 5 is emitted. -/
theorem graph_unknown_node_amended_witness :
    GraphItem.nodeDecl 5 ("x") ∉ graph_items c3state :=
  (graph_unknown_node_amended c3state 5 rfl).1 ("x")

/-- C8: when opening the output file fails, `generate_graph` returns at
once with no side effects: the store is unchanged, no graph text is
produced, nothing is printed, and the rasterizer subprocess is not
spawned (per the error-handling design the abort of the export operation
is itself the report of the failure). -/
theorem graph_open_failure_no_side_effects (st : MonitorState) :
    (generate_graph_run false st).state = st ∧
    (generate_graph_run false st).file = none ∧
    (generate_graph_run false st).console = "" ∧
    (generate_graph_run false st).rasterized = false :=
  ⟨rfl, rfl, rfl, rfl⟩

theorem strConcat_cons (s : String) (l : List String) :
    strConcat (s :: l) = s ++ strConcat l := rfl

theorem info_fold_spec (arg : String) (ns : List (Nat × String)) (out : String)
    (tm tm0 : List (Nat × List EndpointInfo))
    (hinv : ∀ k : Nat, (mapLookup tm k).getD [] = (mapLookup tm0 k).getD []) :
    (ns.foldl (info_fold arg) (out, tm)).1 =
      out ++ strConcat ((ns.filter (fun pr => pr.2 == arg)).map
        (fun pr => render_eps ((mapLookup tm0 pr.1).getD []))) ∧
    ∀ k : Nat, (mapLookup (ns.foldl (info_fold arg) (out, tm)).2 k).getD [] =
      (mapLookup tm0 k).getD [] := by
  induction ns generalizing out tm with
  | nil => exact ⟨by simp [strConcat], hinv⟩
  | cons pr rest ih =>
    by_cases hp : pr.2 = arg
    · have hstep : info_fold arg (out, tm) pr =
          (out ++ render_eps ((mapLookup tm pr.1).getD []),
            mapSet tm pr.1 ((mapLookup tm pr.1).getD [])) := by
        simp [info_fold, hp]
      have hinv2 : ∀ k : Nat,
          (mapLookup (mapSet tm pr.1 ((mapLookup tm pr.1).getD [])) k).getD [] =
            (mapLookup tm0 k).getD [] := by
        intro k
        rw [mapLookup_mapSet]
        by_cases hk : pr.1 = k
        · subst hk
          simp [hinv pr.1]
        · rw [if_neg hk]
          exact hinv k
      obtain ⟨h1, h2⟩ := ih (out ++ render_eps ((mapLookup tm pr.1).getD []))
        (mapSet tm pr.1 ((mapLookup tm pr.1).getD [])) hinv2
      refine ⟨?_, ?_⟩
      · simp only [List.foldl_cons, hstep]
        rw [h1]
        rw [List.filter_cons_of_pos (by simp [hp])]
        rw [List.map_cons, strConcat_cons]
        rw [hinv pr.1]
        rw [String.append_assoc]
      · simp only [List.foldl_cons, hstep]
        exact h2
    · have hstep : info_fold arg (out, tm) pr = (out, tm) := by
        simp [info_fold, hp]
      obtain ⟨h1, h2⟩ := ih out tm hinv
      refine ⟨?_, ?_⟩
      · simp only [List.foldl_cons, hstep]
        rw [h1, List.filter_cons_of_neg (by simp [hp])]
      · simp only [List.foldl_cons, hstep]
        exact h2

theorem info_fold_no_match (arg : String) (ns : List (Nat × String))
    (acc : String × List (Nat × List EndpointInfo))
    (h : ∀ pr ∈ ns, pr.2 ≠ arg) : ns.foldl (info_fold arg) acc = acc := by
  induction ns generalizing acc with
  | nil => rfl
  | cons pr rest ih =>
    rw [List.foldl_cons, show info_fold arg acc pr = acc from by
      simp [info_fold, h pr (List.mem_cons_self pr rest)]]
    exact ih acc (fun q hq => h q (List.mem_cons_of_mem pr hq))

/-- Counterexample to C6: in `c6state` the first node whose display name
equals a is the one with mask value 1, yet `info a` does not print exactly
that node's records — the loop has no early exit, so the records of both
matching nodes are printed. -/
theorem info_not_first_match_cex :
    c6state.nodes.find? (fun pr => pr.2 == ("a" : String)) = some (1, "a") ∧
    (info_cmd c6state ("a")).1 ≠
      render_eps ((mapLookup c6state.topics 1).getD []) := by
  constructor
  · rfl
  · decide

/-- C6 amended: `info <name>` prints the concatenation, in node-map
iteration order, of the endpoint records (role + topic) of every node whose
display name exactly equals the argument — all matches, not only the
first; when no display name matches, it prints nothing, leaves the store
unchanged and raises no error. -/
theorem info_prints_all_matches (st : MonitorState) (arg : String) :
    (info_cmd st arg).1 =
      strConcat ((st.nodes.filter (fun pr => pr.2 == arg)).map
        (fun pr => render_eps ((mapLookup st.topics pr.1).getD []))) ∧
    ((∀ pr ∈ st.nodes, pr.2 ≠ arg) →
      (info_cmd st arg).1 = "" ∧ (info_cmd st arg).2 = st) := by
  constructor
  · have h := (info_fold_spec arg st.nodes "" st.topics st.topics (fun k => rfl)).1
    rw [show (info_cmd st arg).1 =
        (st.nodes.foldl (info_fold arg) ("", st.topics)).1 from rfl, h]
    exact String.empty_append _
  · intro hno
    have h := info_fold_no_match arg st.nodes ("", st.topics) hno
    constructor
    · rw [show (info_cmd st arg).1 =
        (st.nodes.foldl (info_fold arg) ("", st.topics)).1 from rfl, h]
    · rw [show (info_cmd st arg).2 =
        ⟨st.nodes, (st.nodes.foldl (info_fold arg) ("", st.topics)).2⟩ from rfl, h]

/-- Witness for the amended C6: `info a` on `c6miss` prints nothing and
leaves the store untouched. -/
theorem info_prints_all_matches_witness :
    (info_cmd c6miss ("a")).1 = "" ∧ (info_cmd c6miss ("a")).2 = c6miss :=
  (info_prints_all_matches c6miss ("a")).2 (by decide)

theorem info_fold_keeps_empty (arg : String) (ns : List (Nat × String))
    (out : String) (tm : List (Nat × List EndpointInfo)) (p : Nat)
    (h : mapLookup tm p = some []) :
    mapLookup (ns.foldl (info_fold arg) (out, tm)).2 p = some [] := by
  induction ns generalizing out tm with
  | nil => exact h
  | cons pr rest ih =>
    rw [List.foldl_cons]
    by_cases hp : pr.2 = arg
    · rw [show info_fold arg (out, tm) pr =
          (out ++ render_eps ((mapLookup tm pr.1).getD []),
            mapSet tm pr.1 ((mapLookup tm pr.1).getD [])) from by
        simp [info_fold, hp]]
      apply ih
      rw [mapLookup_mapSet]
      by_cases hk : pr.1 = p
      · subst hk
        rw [if_pos rfl, h]
        rfl
      · rw [if_neg hk]
        exact h
    · rw [show info_fold arg (out, tm) pr = (out, tm) from by simp [info_fold, hp]]
      exact ih out tm h

theorem info_fold_creates_empty (arg : String) (ns : List (Nat × String))
    (out : String) (tm : List (Nat × List EndpointInfo)) (p : Nat)
    (hmem : (p, arg) ∈ ns) (hinv : (mapLookup tm p).getD [] = []) :
    mapLookup (ns.foldl (info_fold arg) (out, tm)).2 p = some [] := by
  induction ns generalizing out tm with
  | nil => simp at hmem
  | cons pr rest ih =>
    rw [List.foldl_cons]
    by_cases hpr : pr = (p, arg)
    · subst hpr
      rw [show info_fold arg (out, tm) (p, arg) =
          (out ++ render_eps ((mapLookup tm p).getD []),
            mapSet tm p ((mapLookup tm p).getD [])) from by simp [info_fold]]
      apply info_fold_keeps_empty
      rw [mapLookup_mapSet, if_pos rfl, hinv]
    · have hmem2 : (p, arg) ∈ rest := by
        rcases List.mem_cons.1 hmem with h | h
        · exact absurd h.symm hpr
        · exact h
      by_cases hp : pr.2 = arg
      · rw [show info_fold arg (out, tm) pr =
            (out ++ render_eps ((mapLookup tm pr.1).getD []),
              mapSet tm pr.1 ((mapLookup tm pr.1).getD [])) from by
          simp [info_fold, hp]]
        apply ih _ _ hmem2
        rw [mapLookup_mapSet]
        by_cases hk : pr.1 = p
        · subst hk
          rw [if_pos rfl]
          simpa using hinv
        · rw [if_neg hk]
          exact hinv
      · rw [show info_fold arg (out, tm) pr = (out, tm) from by simp [info_fold, hp]]
        exact ih out tm hmem2 hinv

/-- C10: `info <name>` is not read-only: on a store holding a node whose
display name equals the argument but whose mask value has no entry in the
endpoint map, the command inserts an empty endpoint list under that mask
value (the `operator[]` side effect), so the endpoint map changes. -/
theorem info_inserts_empty_list (st : MonitorState) (arg : String) (p : Nat)
    (hn : (p, arg) ∈ st.nodes) (ht : mapLookup st.topics p = none) :
    mapLookup (info_cmd st arg).2.topics p = some [] ∧
    (info_cmd st arg).2.topics ≠ st.topics := by
  have h1 : mapLookup (info_cmd st arg).2.topics p = some [] := by
    have := info_fold_creates_empty arg st.nodes "" st.topics p hn (by rw [ht]; rfl)
    exact this
  refine ⟨h1, fun hEq => ?_⟩
  rw [hEq, ht] at h1
  exact Option.noConfusion h1

/-- Witness for C10: `info a` on `c10state` creates the empty endpoint list
for mask value 1. -/
theorem info_inserts_empty_list_witness :
    mapLookup (info_cmd c10state ("a")).2.topics 1 = some [] :=
  (info_inserts_empty_list c10state ("a") 1 (List.mem_singleton_self _) rfl).1
